import Mathlib

/-!
# NewsAgg-Mini: verification of the classification and dedup-persistence pipeline

A shallow embedding of `main.py` of the NewsAgg-Mini repository.  Python
strings are Lean `String`s (both are sequences of Unicode code points),
Python lists are Lean `List`s, optional values are `Option`, and the
JSON-file side effects of the storage layer are made explicit: a store file
is either absent, unreadable/corrupt, or a parsed list of article records.

Distinct entries of a Python list are modelled as independent values: the
program constructs a fresh `Article` object per feed entry, so no aliasing
between list entries occurs and the value semantics is faithful.
-/

/-- Python truthiness-based `x or d` for an optional string `x`:
`None` and `""` are falsy and yield the default `d`. -/
def pyOr (x : Option String) (d : String) : String :=
  match x with
  | none => d
  | some s => if s = "" then d else s

/-- Python truthiness-based `x or y` where both operands are optional
strings, as in `entry.get('summary') or entry.get('description')`. -/
def pyOrOpt (x y : Option String) : Option String :=
  match x with
  | none => y
  | some s => if s = "" then y else some s

/-- Python slicing `s[:n]` on a string: the first `n` characters. -/
def pyTake (n : Nat) (s : String) : String :=
  ⟨s.data.take n⟩

/-- Python `str.lower()` (restricted to the ASCII alphabet, which is all
the configuration and the spec's scenarios use). -/
def pyLower (s : String) : String :=
  ⟨s.data.map Char.toLower⟩

/-- `leadsWith n h` is true when the character list `h` starts with `n`. -/
def leadsWith : List Char → List Char → Bool
  | [], _ => true
  | _ :: _, [] => false
  | a :: as, b :: bs => a == b && leadsWith as bs

/-- `occursIn n h` is true when `n` occurs as a contiguous sublist of `h`;
together with `strIn` this models the Python substring test `n in h`. -/
def occursIn (n : List Char) : List Char → Bool
  | [] => n.isEmpty
  | b :: bs => leadsWith n (b :: bs) || occursIn n bs

/-- Python `needle in hay` on strings: substring containment. -/
def strIn (needle hay : String) : Bool :=
  occursIn needle.data hay.data

/-- Lexicographic `≤` on character lists by code point. -/
def strLeb : List Char → List Char → Bool
  | [], _ => true
  | _ :: _, [] => false
  | c :: cs, d :: ds => if c < d then true else if d < c then false else strLeb cs ds

/-- Python string comparison `a <= b`: lexicographic on code points
(provably the same order as Lean's `String` order, see `pyStrLe_iff`). -/
def pyStrLe (a b : String) : Bool :=
  strLeb a.data b.data

/-! ## MD5 (the `hashlib.md5(...).hexdigest()` call used for fingerprints)

A byte-level implementation of MD5 (RFC 1321) over `Nat`, with 32-bit
arithmetic carried out modulo `2^32`. -/

/-- Truncate to a 32-bit word. -/
def u32 (x : Nat) : Nat := x % 4294967296

/-- 32-bit left rotation (input assumed `< 2^32`). -/
def rotl32 (x n : Nat) : Nat := u32 ((x <<< n) + (x >>> (32 - n)))

/-- 32-bit bitwise complement (input assumed `< 2^32`). -/
def not32 (x : Nat) : Nat := x ^^^ 4294967295

/-- The 64 MD5 round constants `K[i] = floor(2^32 * |sin(i+1)|)`. -/
def md5K : List Nat :=
  [0xd76aa478, 0xe8c7b756, 0x242070db, 0xc1bdceee,
   0xf57c0faf, 0x4787c62a, 0xa8304613, 0xfd469501,
   0x698098d8, 0x8b44f7af, 0xffff5bb1, 0x895cd7be,
   0x6b901122, 0xfd987193, 0xa679438e, 0x49b40821,
   0xf61e2562, 0xc040b340, 0x265e5a51, 0xe9b6c7aa,
   0xd62f105d, 0x02441453, 0xd8a1e681, 0xe7d3fbc8,
   0x21e1cde6, 0xc33707d6, 0xf4d50d87, 0x455a14ed,
   0xa9e3e905, 0xfcefa3f8, 0x676f02d9, 0x8d2a4c8a,
   0xfffa3942, 0x8771f681, 0x6d9d6122, 0xfde5380c,
   0xa4beea44, 0x4bdecfa9, 0xf6bb4b60, 0xbebfbc70,
   0x289b7ec6, 0xeaa127fa, 0xd4ef3085, 0x04881d05,
   0xd9d4d039, 0xe6db99e5, 0x1fa27cf8, 0xc4ac5665,
   0xf4292244, 0x432aff97, 0xab9423a7, 0xfc93a039,
   0x655b59c3, 0x8f0ccc92, 0xffeff47d, 0x85845dd1,
   0x6fa87e4f, 0xfe2ce6e0, 0xa3014314, 0x4e0811a1,
   0xf7537e82, 0xbd3af235, 0x2ad7d2bb, 0xeb86d391]

/-- The per-round left-rotation amounts. -/
def md5S : List Nat :=
  [7, 12, 17, 22, 7, 12, 17, 22, 7, 12, 17, 22, 7, 12, 17, 22,
   5, 9, 14, 20, 5, 9, 14, 20, 5, 9, 14, 20, 5, 9, 14, 20,
   4, 11, 16, 23, 4, 11, 16, 23, 4, 11, 16, 23, 4, 11, 16, 23,
   6, 10, 15, 21, 6, 10, 15, 21, 6, 10, 15, 21, 6, 10, 15, 21]

/-- Little-endian byte decomposition: `n` bytes of `x`. -/
def leBytes (n x : Nat) : List Nat :=
  (List.range n).map (fun i => (x >>> (8 * i)) % 256)

/-- MD5 padding: append `0x80`, zero bytes up to 56 mod 64, then the
64-bit little-endian bit length of the original message. -/
def md5pad (msg : List Nat) : List Nat :=
  let z := (119 - msg.length % 64) % 64
  msg ++ [0x80] ++ List.replicate z 0 ++ leBytes 8 ((8 * msg.length) % 2 ^ 64)

/-- The sixteen little-endian 32-bit words of a 64-byte chunk. -/
def md5Words (chunk : List Nat) : List Nat :=
  (List.range 16).map (fun i =>
    chunk.getD (4 * i) 0 + 256 * chunk.getD (4 * i + 1) 0 +
      65536 * chunk.getD (4 * i + 2) 0 + 16777216 * chunk.getD (4 * i + 3) 0)

/-- One MD5 round on the state `(a, b, c, d)`. -/
def md5Round (M : List Nat) (st : Nat × Nat × Nat × Nat) (i : Nat) :
    Nat × Nat × Nat × Nat :=
  let (a, b, c, d) := st
  let fg :=
    if i < 16 then ((b &&& c) ||| (not32 b &&& d), i)
    else if i < 32 then ((d &&& b) ||| (not32 d &&& c), (5 * i + 1) % 16)
    else if i < 48 then (b ^^^ c ^^^ d, (3 * i + 5) % 16)
    else (c ^^^ (b ||| not32 d), (7 * i) % 16)
  let tmp := u32 (a + fg.1 + md5K.getD i 0 + M.getD fg.2 0)
  (d, u32 (b + rotl32 tmp (md5S.getD i 0)), b, c)

/-- Process one 64-byte chunk. -/
def md5Chunk (st : Nat × Nat × Nat × Nat) (chunk : List Nat) :
    Nat × Nat × Nat × Nat :=
  let M := md5Words chunk
  let r := (List.range 64).foldl (md5Round M) st
  (u32 (st.1 + r.1), u32 (st.2.1 + r.2.1), u32 (st.2.2.1 + r.2.2.1),
   u32 (st.2.2.2 + r.2.2.2))

/-- Split a byte list into 64-byte chunks. -/
def toChunks (l : List Nat) : List (List Nat) :=
  if h : l = [] then []
  else l.take 64 :: toChunks (l.drop 64)
termination_by l.length
decreasing_by
  simp only [List.length_drop]
  have : l.length ≠ 0 := fun h0 => h (List.eq_nil_of_length_eq_zero h0)
  omega

/-- MD5 digest of a byte sequence, as 16 bytes. -/
def md5Bytes (msg : List Nat) : List Nat :=
  let st := (toChunks (md5pad msg)).foldl md5Chunk
    (0x67452301, 0xefcdab89, 0x98badcfe, 0x10325476)
  leBytes 4 st.1 ++ leBytes 4 st.2.1 ++ leBytes 4 st.2.2.1 ++ leBytes 4 st.2.2.2

/-- Lower-case hex digit for a nibble. -/
def hexDigit (n : Nat) : Char :=
  if n < 10 then Char.ofNat (48 + n) else Char.ofNat (87 + n)

/-- Two hex digits of a byte. -/
def byteHex (b : Nat) : List Char :=
  [hexDigit (b / 16), hexDigit (b % 16)]

/-- `hashlib.md5(s.encode()).hexdigest()`: the 32-character lower-case hex
digest of the UTF-8 encoding of `s`. -/
def md5hex (s : String) : String :=
  ⟨((md5Bytes (s.toUTF8.toList.map (·.toNat))).map byteHex).flatten⟩

/-! ## Data models (`Article`, `Topic`) -/

/-- The article record: the fields set by `Article.__init__` plus the `id`
fingerprint it computes and the `topics` list the classifier mutates. -/
structure Article where
  id : String
  title : String
  url : String
  source : String
  summary : String
  published : String
  topics : List String
deriving DecidableEq, Repr

/-- `hashlib.md5(f"{source}|{url}|{title}".encode()).hexdigest()[:12]`. -/
def fingerprint (source url title : String) : String :=
  pyTake 12 (md5hex (source ++ "|" ++ url ++ "|" ++ title))

/-- `Article.__init__`: optional `summary` defaults to `""`, optional
`published` defaults to the current UTC time (passed in as `now`), the
`topics` list starts empty and `id` is the content fingerprint. -/
def Article.create (title url source : String) (summary published : Option String)
    (now : String) : Article :=
  { title := title
    url := url
    source := source
    summary := pyOr summary ""
    published := pyOr published now
    topics := []
    id := fingerprint source url title }

/-- The JSON object written by `Article.to_dict`; optional fields model
keys that `Article.from_dict` reads with `.get` (they are always present
in dictionaries produced by `to_dict`). -/
structure ArticleDict where
  id : Option String
  title : String
  url : String
  source : String
  summary : Option String
  published : Option String
  topics : Option (List String)
deriving DecidableEq, Repr

/-- `Article.to_dict`. -/
def Article.to_dict (a : Article) : ArticleDict :=
  { id := some a.id
    title := a.title
    url := a.url
    source := a.source
    summary := some a.summary
    published := some a.published
    topics := some a.topics }

/-- `Article.from_dict`: rebuilds through `__init__` (so `summary` and
`published` go through the same defaulting), then restores the stored
`id` and `topics` when those keys are present. -/
def Article.from_dict (now : String) (d : ArticleDict) : Article :=
  let art := Article.create d.title d.url d.source d.summary d.published now
  { art with id := d.id.getD art.id, topics := d.topics.getD [] }

/-- Topic configuration; `Topic.__init__` lower-cases the keyword lists. -/
structure Topic where
  name : String
  keywords : List String
  exclude_words : List String
deriving DecidableEq, Repr

/-- `Topic.__init__`. -/
def Topic.create (name : String) (keywords : List String)
    (exclude0 : Option (List String)) : Topic :=
  { name := name
    keywords := keywords.map pyLower
    exclude_words := (exclude0.getD []).map pyLower }

/-- `Topic.matches`: lower-case the text, refuse on any exclude word,
otherwise accept on any keyword (both by substring containment). -/
def Topic.matches (t : Topic) (text : String) : Bool :=
  let text_lower := pyLower text
  if t.exclude_words.any (fun w => strIn w text_lower) then false
  else t.keywords.any (fun k => strIn k text_lower)

/-! ## RSS fetcher

`feedparser` is an external collaborator: a parsed feed entry is modelled
as a record of the optional fields the code reads.  `published_parsed`
together with the `datetime(...).isoformat()` formatting is collapsed to
an optional preformatted ISO timestamp string. -/

structure FeedEntry where
  title : Option String
  link : Option String
  entry_id : Option String
  summary : Option String
  description : Option String
  published_parsed : Option String
deriving DecidableEq, Repr

/-- The per-entry body of `RSSFetcher.fetch`: defaults for missing title
and link, the summary truncated to 500 characters, and the article built
through `Article.__init__`. -/
def fetch_entry (source_name now : String) (e : FeedEntry) : Article :=
  let title := e.title.getD "No Title"
  let url := match e.link with
    | some l => l
    | none => e.entry_id.getD ""
  let summary := pyTake 500 (pyOr (pyOrOpt e.summary e.description) "")
  Article.create title url source_name (some summary) e.published_parsed now

/-- `RSSFetcher.fetch` over an already-parsed feed: at most 20 entries are
turned into articles.  (A feed-level parse failure returns `[]` in the
source; callers model it by passing no entries.) -/
def RSSFetcher.fetch (source_name now : String) (entries : List FeedEntry) :
    List Article :=
  (entries.take 20).map (fetch_entry source_name now)

/-! ## Classifier

`Classifier.classify` builds a Python dict from topic names to buckets;
the dict is modelled as an association list with insertion-order
semantics: setting an existing key updates it in place, a new key is
appended.  A bucket append in the source stores a *reference* to the
article object whose `topics` list keeps growing during the same
iteration; in the value model the fully-updated article is appended. -/

/-- Python `dict[k] = v` on an insertion-ordered association list. -/
def dict_set (m : List (String × List Article)) (k : String) (v : List Article) :
    List (String × List Article) :=
  if m.any (fun p => p.1 = k) then
    m.map (fun p => if p.1 = k then (p.1, v) else p)
  else m ++ [(k, v)]

/-- Python `dict[k].append(a)` (the key is present whenever the source
performs this call). -/
def dict_app (m : List (String × List Article)) (k : String) (a : Article) :
    List (String × List Article) :=
  m.map (fun p => if p.1 = k then (p.1, p.2 ++ [a]) else p)

/-- `f"{article.title} {article.summary}"`. -/
def search_text (a : Article) : String :=
  a.title ++ " " ++ a.summary

/-- The state of an input article after `classify` has run: every matched
topic's name appended to its `topics` list, in topic evaluation order. -/
def classify_art (topics : List Topic) (a : Article) : Article :=
  { a with topics :=
      a.topics ++ (topics.filter (fun t => t.matches (search_text a))).map Topic.name }

/-- The body of the per-article loop of `Classifier.classify`. -/
def classify_step (topics : List Topic)
    (acc : List (String × List Article) × List Article) (article : Article) :
    List (String × List Article) × List Article :=
  let matched := topics.filter (fun t => t.matches (search_text article))
  let art := { article with topics := article.topics ++ matched.map Topic.name }
  let m := matched.foldl (fun m t => dict_app m t.name art) acc.1
  let m := if matched.isEmpty then dict_app m "uncategorized" art else m
  (m, acc.2 ++ [art])

/-- `Classifier.classify`: returns the topic-name → bucket mapping with
empty buckets dropped, together with the post-call state of the input
articles (whose `topics` fields the source mutates in place). -/
def Classifier.classify (topics : List Topic) (articles : List Article) :
    List (String × List Article) × List Article :=
  let init := dict_set (topics.foldl (fun m t => dict_set m t.name []) []) "uncategorized" []
  let res := articles.foldl (classify_step topics) (init, [])
  (res.1.filter (fun p => !p.2.isEmpty), res.2)

/-- A key is present in the association-list dict. -/
def key_has (m : List (String × List Article)) (k : String) : Prop :=
  k ∈ m.map Prod.fst

/-- Every bucket stored under key `k` in the dict contains article `x`. -/
def all_key (m : List (String × List Article)) (k : String) (x : Article) : Prop :=
  ∀ v, (k, v) ∈ m → x ∈ v

/-! ## Storage

A partition's store file is `none` when the file does not exist,
`some (Except.error ())` when reading or JSON-parsing it raises (the
source logs and continues), and `some (Except.ok ds)` when it parses to a
list of article dictionaries. -/

/-- The three states of a partition's backing file. -/
abbrev StoreFile : Type := Option (Except Unit (List ArticleDict))

/-- `f"{topic}_articles.json"`. -/
def store_path (topic : String) : String := topic ++ "_articles.json"

/-- Reading a partition file: both `load_articles` and the load step at
the start of `save_articles` produce `[]` for an absent or unreadable
file and parse each dictionary through `Article.from_dict` otherwise. -/
def load_store (file : StoreFile) (now : String) : List Article :=
  match file with
  | some (Except.ok ds) => ds.map (Article.from_dict now)
  | _ => []

/-- Python descending sort order on the `published` key: article `a`
precedes `b` when `b.published <= a.published` (string comparison; the
source's key `a.published or ""` equals `a.published`, which is always a
string).  `list.sort` is stable, so the stable `List.insertionSort` with
this order models it exactly. -/
def byPubDesc (a b : Article) : Prop := pyStrLe b.published a.published = true

instance : DecidableRel byPubDesc := fun a b =>
  inferInstanceAs (Decidable (pyStrLe b.published a.published = true))

/-- `Storage.save_articles` on one partition file: load the existing
articles (empty on absence/corruption), keep only incoming articles whose
fingerprint is not among the existing ones, concatenate, sort by
`published` descending, truncate to the 100-article cap, and write the
result back as dictionaries.  Returns the count of newly added articles
and the written file contents. -/
def Storage.save_file (file : StoreFile) (now : String) (articles : List Article) :
    Nat × List ArticleDict :=
  let existing_articles := load_store file now
  let existing_ids := existing_articles.map (·.id)
  let new_articles := articles.filter (fun a => !(existing_ids.contains a.id))
  let all_articles := existing_articles ++ new_articles
  let kept := (List.insertionSort byPubDesc all_articles).take 100
  (new_articles.length, kept.map Article.to_dict)

/-- `Storage.save_articles` addressed by partition key, over a file
system `fs` mapping file names to file states. -/
def Storage.save_articles (fs : String → StoreFile) (topic : String)
    (now : String) (articles : List Article) : Nat × List ArticleDict :=
  Storage.save_file (fs (store_path topic)) now articles

/-- `Storage.load_articles`. -/
def Storage.load_articles (fs : String → StoreFile) (topic : String)
    (now : String) : List Article :=
  load_store (fs (store_path topic)) now

/-- A sequence of saves against one partition, starting from a partition
that has never been saved: each save's output becomes the next file
state. -/
def Storage.run_saves (now : String) (batches : List (List Article)) : StoreFile :=
  batches.foldl (fun st b => some (Except.ok (Storage.save_file st now b).2)) none

/-- The `new_articles` selection inside `save_articles`: incoming
articles whose fingerprint is not among the existing ones. -/
def new_of (ex articles : List Article) : List Article :=
  articles.filter (fun a => !((ex.map (·.id)).contains a.id))

/-- A file-system update: the write that `save_articles` performs at the
partition's path. -/
def fs_update (fs : String → StoreFile) (path : String) (content : List ArticleDict) :
    String → StoreFile :=
  fun p => if p = path then some (Except.ok content) else fs p

/-! ## Concrete instances used by witnesses and counterexamples -/

/-- A concrete feed entry used to instantiate the fetch theorem. -/
def entryW : FeedEntry :=
  { title := some "T", link := some "L", entry_id := none,
    summary := some "S", description := none, published_parsed := some "2024" }

/-- A concrete article used to instantiate the round-trip theorem. -/
def articleW : Article :=
  { id := "id1", title := "t", url := "u", source := "s",
    summary := "sum", published := "2024-01-01", topics := ["x"] }

/-- A concrete article for the C1 witness. -/
def articleC1 : Article :=
  { id := "w1", title := "t", url := "u", source := "s",
    summary := "", published := "2024", topics := [] }

/-- A concrete article saved twice in one batch. -/
def articleDup : Article :=
  { id := "x", title := "t", url := "u", source := "s",
    summary := "", published := "2024", topics := [] }

/-- A concrete article for the C2 witness. -/
def articleC2 : Article :=
  { id := "i", title := "t", url := "u", source := "s",
    summary := "", published := "2024", topics := [] }

/-- 101 articles with pairwise distinct fingerprints and strictly
descending `published` strings. -/
def batch101 : List Article :=
  (List.range 101).map (fun i =>
    { id := "i" ++ toString i, title := "", url := "", source := "",
      summary := "", published := "p" ++ toString (999 - i), topics := [] })

/-- The stored record the C7 witness reads back. -/
def dictC7 : ArticleDict :=
  { id := some "x", title := "t", url := "u", source := "s",
    summary := some "", published := some "2024", topics := some [] }

/-- A file system whose partition already holds `dictC7`. -/
def fsC7 : String → StoreFile := fun _ => some (Except.ok [dictC7])

/-- An incoming article with the already-stored fingerprint "x" but
different summary and published values. -/
def articleC7 : Article :=
  { id := "x", title := "t2", url := "u2", source := "s2",
    summary := "changed", published := "2025", topics := [] }

/-- Two concrete topics sharing an article's text. -/
def topicA : Topic := Topic.create "A" ["alpha"] none

/-- A second topic also matching the witness article. -/
def topicB : Topic := Topic.create "B" ["beta"] none

/-- An article whose title matches both `topicA` and `topicB`. -/
def articleC6 : Article :=
  { id := "c6", title := "alpha beta", url := "u", source := "s",
    summary := "", published := "2024", topics := [] }

/-! ## Supporting lemmas -/

/-- Truncation bound for Python slicing. -/
theorem pyTake_length_le (n : Nat) (s : String) : (pyTake n s).length ≤ n := by
  simp only [pyTake, String.length, List.length_take]
  omega

/-- Defaulting an optional string against the empty default never makes
it longer. -/
theorem pyOr_some_empty_length (s : String) : (pyOr (some s) "").length ≤ s.length := by
  by_cases h : s = "" <;> simp [pyOr, h]

/-- Python truthiness `or` never returns the empty string when its
default is nonempty. -/
theorem pyOr_ne (o : Option String) {d : String} (hd : d ≠ "") : pyOr o d ≠ "" := by
  unfold pyOr
  match o with
  | none => exact hd
  | some s =>
    by_cases hs : s = "" <;> simp [hs, hd]

/-- The executable string comparison agrees with the standard
lexicographic order on character lists. -/
theorem strLeb_iff : ∀ a b : List Char, strLeb a b = true ↔ ¬b < a
  | [], b => by
    refine iff_of_true rfl (fun h => ?_)
    cases h
  | c :: cs, [] =>
    iff_of_false (by simp [strLeb]) (not_not_intro (List.nil_lt_cons c cs))
  | c :: cs, d :: ds => by
    by_cases h1 : c < d
    · refine iff_of_true (by simp [strLeb, h1]) (fun hlt => ?_)
      cases hlt with
      | cons h2 => exact absurd h1 (lt_irrefl c)
      | rel h2 => exact absurd h1 (lt_asymm h2)
    · by_cases h2 : d < c
      · exact iff_of_false (by simp [strLeb, h1, h2])
          (not_not_intro (List.Lex.rel h2))
      · have heq : c = d := le_antisymm (le_of_not_lt h2) (le_of_not_lt h1)
        subst heq
        have he : strLeb (c :: cs) (c :: ds) = strLeb cs ds := by
          simp [strLeb, h1]
        rw [he, strLeb_iff cs ds]
        constructor
        · intro h hlt
          cases hlt with
          | cons h3 => exact h h3
          | rel h3 => exact absurd h3 (lt_irrefl c)
        · intro h hlt
          exact h (List.Lex.cons hlt)

/-- `pyStrLe` is the `≤` order on strings. -/
theorem pyStrLe_iff (a b : String) : pyStrLe a b = true ↔ a ≤ b := by
  show strLeb a.data b.data = true ↔ a ≤ b
  rw [strLeb_iff, String.le_iff_toList_le]
  exact not_lt

/-- The descending-`published` order is total. -/
theorem byPubDesc_total : IsTotal Article byPubDesc :=
  ⟨fun a b => by
    simp only [byPubDesc, pyStrLe_iff]
    exact le_total b.published a.published⟩

/-- The descending-`published` order is transitive. -/
theorem byPubDesc_trans : IsTrans Article byPubDesc :=
  ⟨fun a b c hab hbc => by
    simp only [byPubDesc, pyStrLe_iff] at *
    exact le_trans hbc hab⟩

/-- `leadsWith` decides the prefix relation. -/
theorem leadsWith_iff (n h : List Char) : leadsWith n h = true ↔ ∃ r, h = n ++ r := by
  induction n generalizing h with
  | nil => simp [leadsWith]
  | cons a as ih =>
    cases h with
    | nil => simp [leadsWith]
    | cons b bs =>
      simp only [leadsWith, Bool.and_eq_true, beq_iff_eq, ih, List.cons_append,
        List.cons.injEq]
      constructor
      · rintro ⟨rfl, r, rfl⟩
        exact ⟨r, rfl, rfl⟩
      · rintro ⟨r, rfl, rfl⟩
        exact ⟨rfl, r, rfl⟩

/-- `occursIn` decides substring containment. -/
theorem occursIn_iff (n h : List Char) : occursIn n h = true ↔ ∃ l r, h = l ++ n ++ r := by
  induction h with
  | nil =>
    simp only [occursIn, List.isEmpty_iff]
    constructor
    · rintro rfl
      exact ⟨[], [], rfl⟩
    · rintro ⟨l, r, hr⟩
      have := congrArg List.length hr
      simp only [List.length_nil, List.length_append] at this
      exact List.eq_nil_of_length_eq_zero (by omega)
  | cons b bs ih =>
    simp only [occursIn, Bool.or_eq_true, leadsWith_iff, ih]
    constructor
    · rintro (⟨r, hr⟩ | ⟨l, r, hr⟩)
      · exact ⟨[], r, by simp [hr]⟩
      · exact ⟨b :: l, r, by simp [hr]⟩
    · rintro ⟨l, r, hr⟩
      cases l with
      | nil =>
        exact Or.inl ⟨r, by simpa using hr⟩
      | cons x xs =>
        simp only [List.cons_append, List.cons.injEq] at hr
        exact Or.inr ⟨xs, r, by simp [hr.2]⟩

/-- The round trip through `to_dict`/`from_dict` restores every field of
an article whose `published` string is nonempty (every article the
program constructs has one, since `__init__` substitutes the current
time for a missing or empty value). -/
theorem from_dict_to_dict (a : Article) (now : String) (h : a.published ≠ "") :
    Article.from_dict now (Article.to_dict a) = a := by
  obtain ⟨i, t, u, s, sm, p, tp⟩ := a
  simp only [ne_eq] at h
  simp only [Article.to_dict, Article.from_dict, Article.create, pyOr, Option.getD]
  by_cases hsm : sm = "" <;> simp_all

/-! ## Claim theorems -/

/-- Claim C3: the fingerprint `id` of a constructed article is a function
of `(source, url, title)` alone: it never depends on the summary, the
published value or the ingestion time, and two articles built from the
same triple get equal ids. -/
theorem article_id_deterministic :
    ∀ (title url source : String) (s1 p1 : Option String) (n1 : String)
      (s2 p2 : Option String) (n2 : String),
      (Article.create title url source s1 p1 n1).id
          = (Article.create title url source s2 p2 n2).id
        ∧ (Article.create title url source s1 p1 n1).id = fingerprint source url title :=
  fun _ _ _ _ _ _ _ _ _ => ⟨rfl, rfl⟩

/-- Claim C4: if any exclude word of a topic occurs as a substring of the
lower-cased text, `Topic.matches` returns `false`, regardless of which
keywords also occur. -/
theorem topic_exclude_precedence (t : Topic) (text : String)
    (h : ∃ w ∈ t.exclude_words, ∃ l r, (pyLower text).data = l ++ w.data ++ r) :
    t.matches text = false := by
  obtain ⟨w, hw, l, r, hsub⟩ := h
  have hx : t.exclude_words.any (fun w => strIn w (pyLower text)) = true :=
    List.any_eq_true.mpr ⟨w, hw, (occursIn_iff _ _).mpr ⟨l, r, hsub⟩⟩
  simp [Topic.matches, hx]

/-- Witness for C4: with exclude word "scam" present, the topic does not
match even though its keyword "ai" is also present in the text. -/
theorem topic_exclude_precedence_witness :
    (Topic.create "T" ["ai"] (some ["scam"])).matches "big AI scam" = false :=
  topic_exclude_precedence (Topic.create "T" ["ai"] (some ["scam"])) "big AI scam"
    ⟨"scam", by decide, (occursIn_iff "scam".data (pyLower "big AI scam").data).mp (by decide)⟩

/-- Claim C5: topic matching is case-insensitive substring containment,
not word-boundary matching: when no exclude word occurs, `matches` is
true exactly when some keyword occurs as a substring of the lower-cased
text; in particular the topic `AI` with keywords `ai`/`llm` matches both
"New LLM released" and "Thai food trends" (through the substring "ai"
inside "Thai"). -/
theorem topic_matches_substring :
    (∀ (t : Topic) (text : String),
        (∀ w ∈ t.exclude_words, ¬∃ l r, (pyLower text).data = l ++ w.data ++ r) →
        (t.matches text = true
          ↔ ∃ k ∈ t.keywords, ∃ l r, (pyLower text).data = l ++ k.data ++ r))
      ∧ (Topic.create "AI" ["ai", "llm"] none).matches "New LLM released" = true
      ∧ (Topic.create "AI" ["ai", "llm"] none).matches "Thai food trends" = true := by
  refine ⟨?_, by decide, by decide⟩
  intro t text hex
  have hx : t.exclude_words.any (fun w => strIn w (pyLower text)) = false := by
    rw [List.any_eq_false]
    intro w hw
    simp only [strIn, Bool.not_eq_true]
    cases hocc : occursIn w.data (pyLower text).data with
    | false => rfl
    | true => exact absurd ((occursIn_iff _ _).mp hocc) (hex w hw)
  simp only [Topic.matches, hx, Bool.false_eq_true, if_false, List.any_eq_true]
  constructor
  · rintro ⟨k, hk, hocc⟩
    exact ⟨k, hk, (occursIn_iff _ _).mp hocc⟩
  · rintro ⟨k, hk, l, r, hr⟩
    exact ⟨k, hk, (occursIn_iff _ _).mpr ⟨l, r, hr⟩⟩

/-- Witness for C5: the general part applied to the `AI` topic (no
exclude words) and the text "Thai food trends". -/
theorem topic_matches_substring_witness :
    (Topic.create "AI" ["ai", "llm"] none).matches "Thai food trends" = true
      ↔ ∃ k ∈ (Topic.create "AI" ["ai", "llm"] none).keywords,
          ∃ l r, (pyLower "Thai food trends").data = l ++ k.data ++ r :=
  topic_matches_substring.1 (Topic.create "AI" ["ai", "llm"] none) "Thai food trends"
    (fun w hw => absurd hw (List.not_mem_nil w))

/-- Claim C8: loading a partition whose file was never written, or whose
file is unreadable or corrupt, returns the empty list; the failure is
absorbed (the function is total), never raised to the caller. -/
theorem load_articles_error_handling :
    ∀ (fs : String → StoreFile) (topic now : String),
      (fs (store_path topic) = none → Storage.load_articles fs topic now = [])
        ∧ (fs (store_path topic) = some (Except.error ())
            → Storage.load_articles fs topic now = []) := by
  intro fs topic now
  constructor <;> intro h <;> simp [Storage.load_articles, load_store, h]

/-- Witness for C8: loading from a file system with no files. -/
theorem load_articles_error_handling_witness :
    Storage.load_articles (fun _ => (none : StoreFile)) "all" "now" = [] :=
  (load_articles_error_handling (fun _ => none) "all" "now").1 rfl

/-- Claim C9: every article the fetcher constructs from a feed entry has
a summary of at most 500 characters — the truncation happens before the
article is built. -/
theorem fetch_summary_capped (source_name now : String) (entries : List FeedEntry) :
    ∀ a ∈ RSSFetcher.fetch source_name now entries, a.summary.length ≤ 500 := by
  intro a ha
  obtain ⟨e, _, rfl⟩ := List.mem_map.mp ha
  show (pyOr (some (pyTake 500 (pyOr (pyOrOpt e.summary e.description) ""))) "").length ≤ 500
  exact le_trans (pyOr_some_empty_length _) (pyTake_length_le _ _)

/-- Witness for C9: the cap holds for a concretely fetched article. -/
theorem fetch_summary_capped_witness :
    (fetch_entry "src" "now" entryW).summary.length ≤ 500 := by
  apply fetch_summary_capped "src" "now" [entryW]
  have h : RSSFetcher.fetch "src" "now" [entryW] = [fetch_entry "src" "now" entryW] := rfl
  rw [h]
  exact List.mem_singleton.mpr rfl

/-- Claim C10: serializing an article with `to_dict` and parsing it back
with `from_dict` restores every field verbatim — in particular the stored
`id` and `topics` are taken from the dictionary, not recomputed.  The
hypothesis holds for every article the program constructs: `__init__`
replaces a missing or empty `published` with the current time. -/
theorem article_roundtrip (a : Article) (now : String) (h : a.published ≠ "") :
    Article.from_dict now (Article.to_dict a) = a :=
  from_dict_to_dict a now h

/-- Witness for C10: the round trip at a concrete article. -/
theorem article_roundtrip_witness :
    Article.from_dict "now2" (Article.to_dict articleW) = articleW :=
  article_roundtrip articleW "now2" (by decide)

/-- `Storage.save_file` written out in terms of `new_of`. -/
theorem save_file_eq (file : StoreFile) (now : String) (articles : List Article) :
    Storage.save_file file now articles =
      ((new_of (load_store file now) articles).length,
       ((List.insertionSort byPubDesc
           (load_store file now ++ new_of (load_store file now) articles)).take 100).map
         Article.to_dict) := rfl

/-- Membership in the newly-added selection. -/
theorem mem_new_of {ex articles : List Article} {a : Article} :
    a ∈ new_of ex articles ↔ a ∈ articles ∧ a.id ∉ ex.map (·.id) := by
  simp [new_of, List.mem_filter]

/-- The written partition never exceeds the 100-article cap. -/
theorem save_file_len (file : StoreFile) (now : String) (articles : List Article) :
    (Storage.save_file file now articles).2.length ≤ 100 := by
  rw [save_file_eq]
  simp only [List.length_map, List.length_take]
  omega

/-- The written partition is ordered by `published` descending (string
comparison on the stored value, with `""` for a missing one, exactly the
source's sort key `a.published or ""`). -/
theorem save_file_sorted (file : StoreFile) (now : String) (articles : List Article) :
    List.Pairwise (fun d1 d2 : ArticleDict => d2.published.getD "" ≤ d1.published.getD "")
      (Storage.save_file file now articles).2 := by
  haveI := byPubDesc_total
  haveI := byPubDesc_trans
  rw [save_file_eq]
  exact List.Pairwise.map _ (fun _ _ h => (pyStrLe_iff _ _).mp h)
    (List.Pairwise.sublist (List.take_sublist _ _)
      (List.sorted_insertionSort byPubDesc _))

/-- When both the loaded partition and the incoming batch carry pairwise
distinct fingerprints, so does the written partition. -/
theorem save_file_nodup (file : StoreFile) (now : String) (articles : List Article)
    (hex : ((load_store file now).map (·.id)).Nodup)
    (hb : (articles.map (·.id)).Nodup) :
    ((Storage.save_file file now articles).2.map (fun d => d.id)).Nodup := by
  rw [save_file_eq]
  have hall : (((load_store file now) ++ new_of (load_store file now) articles).map
      (·.id)).Nodup := by
    rw [List.map_append, List.nodup_append]
    refine ⟨hex, hb.sublist ((List.filter_sublist _).map _), ?_⟩
    intro x hx1 hx2
    obtain ⟨a, ha, rfl⟩ := List.mem_map.mp hx2
    exact (mem_new_of.mp ha).2 hx1
  have hsort : ((List.insertionSort byPubDesc
      ((load_store file now) ++ new_of (load_store file now) articles)).map (·.id)).Nodup :=
    (((List.perm_insertionSort byPubDesc _).map (·.id)).nodup_iff).mpr hall
  have htk : (((List.insertionSort byPubDesc
      ((load_store file now) ++ new_of (load_store file now) articles)).take 100).map
      (·.id)).Nodup :=
    hsort.sublist ((List.take_sublist _ _).map _)
  rw [List.map_map]
  have hsome := htk.map (Option.some_injective String)
  rw [List.map_map] at hsome
  exact hsome

/-- Any chain of saves leaves the partition file holding at most 100
records, whatever the starting state allows. -/
theorem run_saves_le (now : String) (batches : List (List Article)) :
    ∀ st : StoreFile, (∀ n3, (load_store st n3).length ≤ 100) →
      ∀ n3, (load_store (batches.foldl
          (fun st b => some (Except.ok (Storage.save_file st now b).2)) st) n3).length ≤ 100 := by
  induction batches with
  | nil => exact fun st h n3 => h n3
  | cons b bs ih =>
    intro st h n3
    refine ih _ (fun n4 => ?_) n3
    show (load_store (some (Except.ok (Storage.save_file st now b).2)) n4).length ≤ 100
    simpa [load_store] using save_file_len st now b

/-- Claim C1 (amended): every save leaves the persisted partition with at
most 100 articles, ordered by `published` descending under string
comparison; the stored fingerprints are pairwise distinct provided both
the loaded partition's and the incoming batch's fingerprints are; and for
any sequence of saves a load of the partition returns at most 100
articles. -/
theorem save_partition_invariant (fs : String → StoreFile) (topic now : String)
    (articles : List Article) :
    (Storage.save_articles fs topic now articles).2.length ≤ 100
    ∧ List.Pairwise (fun d1 d2 : ArticleDict => d2.published.getD "" ≤ d1.published.getD "")
        (Storage.save_articles fs topic now articles).2
    ∧ (((Storage.load_articles fs topic now).map (·.id)).Nodup →
        (articles.map (·.id)).Nodup →
        ((Storage.save_articles fs topic now articles).2.map (fun d => d.id)).Nodup)
    ∧ ∀ (now2 now3 : String) (batches : List (List Article)),
        (load_store (Storage.run_saves now2 batches) now3).length ≤ 100 := by
  refine ⟨save_file_len _ _ _, save_file_sorted _ _ _, save_file_nodup _ _ _, ?_⟩
  intro now2 now3 batches
  exact run_saves_le now2 batches none (fun _ => by simp [load_store]) now3

/-- Witness for C1: the uniqueness conjunct at a concrete save. -/
theorem save_partition_invariant_witness :
    ((Storage.save_articles (fun _ => none) "all" "n" [articleC1]).2.map
      (fun d => d.id)).Nodup :=
  (save_partition_invariant (fun _ => none) "all" "n" [articleC1]).2.2.1
    (by decide) (by decide)

/-- Counterexample to C1 as stated: a batch containing the same article
twice (identical source/url/title, hence identical fingerprint) is stored
twice, so the persisted partition does not have pairwise-distinct
fingerprints — the dedup filter only compares incoming articles against
the previously existing ids, never against each other. -/
theorem save_unique_cex :
    ¬ ((Storage.save_articles (fun _ => none) "all" "now" [articleDup, articleDup]).2.map
        (fun d => d.id)).Nodup := by
  have h : (Storage.save_articles (fun _ => none) "all" "now" [articleDup, articleDup]).2.map
      (fun d => d.id) = [some "x", some "x"] := by decide
  rw [h]
  intro hn
  exact (List.nodup_cons.mp hn).1 (List.mem_singleton.mpr rfl)

/-- Articles parsed from a store file always carry a nonempty `published`
string (the parse goes through `__init__`, which substitutes the current
time for a missing or empty value). -/
theorem load_store_published_ne {now : String} (file : StoreFile) (hnow : now ≠ "") :
    ∀ a ∈ load_store file now, a.published ≠ "" := by
  intro a ha
  match file with
  | none => simp [load_store] at ha
  | some (Except.error _) => simp [load_store] at ha
  | some (Except.ok ds) =>
    simp only [load_store, List.mem_map] at ha
    obtain ⟨d, _, rfl⟩ := ha
    show pyOr d.published now ≠ ""
    exact pyOr_ne _ hnow

/-- Core of the idempotence property: when the first save does not
truncate (the loaded partition plus the batch fit within the cap) and
the batch's articles carry nonempty `published` strings, saving the same
batch again against the written file adds nothing and rewrites the same
contents. -/
theorem save_file_idem (file : StoreFile) (now1 now2 : String) (articles : List Article)
    (hnow : now1 ≠ "")
    (hpub : ∀ a ∈ articles, a.published ≠ "")
    (hcap : (load_store file now1).length + articles.length ≤ 100) :
    (Storage.save_file (some (Except.ok (Storage.save_file file now1 articles).2))
        now2 articles).1 = 0
    ∧ (Storage.save_file (some (Except.ok (Storage.save_file file now1 articles).2))
        now2 articles).2 = (Storage.save_file file now1 articles).2 := by
  haveI := byPubDesc_total
  haveI := byPubDesc_trans
  have hnw_le : (new_of (load_store file now1) articles).length ≤ articles.length :=
    List.length_filter_le _ _
  have hSlen : (List.insertionSort byPubDesc
      (load_store file now1 ++ new_of (load_store file now1) articles)).length ≤ 100 := by
    rw [(List.perm_insertionSort byPubDesc _).length_eq, List.length_append]
    omega
  have h1 : (Storage.save_file file now1 articles).2
      = (List.insertionSort byPubDesc
          (load_store file now1 ++ new_of (load_store file now1) articles)).map
        Article.to_dict := by
    rw [save_file_eq]
    rw [List.take_of_length_le hSlen]
  have hpubS : ∀ a ∈ List.insertionSort byPubDesc
      (load_store file now1 ++ new_of (load_store file now1) articles), a.published ≠ "" := by
    intro a ha
    rw [List.mem_insertionSort] at ha
    rcases List.mem_append.mp ha with h | h
    · exact load_store_published_ne file hnow a h
    · exact hpub a (mem_new_of.mp h).1
  have hload2 : load_store (some (Except.ok ((Storage.save_file file now1 articles).2))) now2
      = List.insertionSort byPubDesc
          (load_store file now1 ++ new_of (load_store file now1) articles) := by
    rw [h1]
    show ((List.insertionSort byPubDesc _).map Article.to_dict).map (Article.from_dict now2) = _
    rw [List.map_map]
    calc (List.insertionSort byPubDesc
            (load_store file now1 ++ new_of (load_store file now1) articles)).map
          (Article.from_dict now2 ∘ Article.to_dict)
        = (List.insertionSort byPubDesc
            (load_store file now1 ++ new_of (load_store file now1) articles)).map id :=
          List.map_congr_left (fun a ha => from_dict_to_dict a now2 (hpubS a ha))
      _ = _ := List.map_id _
  have hcover : ∀ a ∈ articles,
      ((List.insertionSort byPubDesc
          (load_store file now1 ++ new_of (load_store file now1) articles)).map
        (·.id)).contains a.id = true := by
    intro a ha
    show List.elem a.id _ = true
    rw [List.elem_iff]
    rw [((List.perm_insertionSort byPubDesc _).map (·.id)).mem_iff, List.map_append]
    by_cases hc : a.id ∈ (load_store file now1).map (·.id)
    · exact List.mem_append_left _ hc
    · exact List.mem_append_right _ (List.mem_map_of_mem _ (mem_new_of.mpr ⟨ha, hc⟩))
  have hnew2 : new_of (List.insertionSort byPubDesc
      (load_store file now1 ++ new_of (load_store file now1) articles)) articles = [] := by
    refine List.filter_eq_nil_iff.mpr (fun a ha => ?_)
    intro hbad
    rw [hcover a ha, Bool.not_true] at hbad
    exact Bool.false_ne_true hbad
  constructor
  · rw [save_file_eq, hload2, hnew2]
    rfl
  · rw [save_file_eq, hload2, hnew2, List.append_nil]
    rw [(List.sorted_insertionSort byPubDesc _).insertionSort_eq]
    rw [List.take_of_length_le hSlen]
    exact h1.symm

/-- Claim C2 (amended): saving the same batch twice in a row reports 0
newly added articles on the second call and leaves the persisted
partition unchanged, provided the first save evicted nothing (the loaded
partition plus the batch fit within the 100-article cap) and the
articles carry nonempty `published` strings — which every article the
program constructs does. -/
theorem save_idempotent (fs : String → StoreFile) (topic now1 now2 : String)
    (articles : List Article)
    (hnow : now1 ≠ "")
    (hpub : ∀ a ∈ articles, a.published ≠ "")
    (hcap : (Storage.load_articles fs topic now1).length + articles.length ≤ 100) :
    (Storage.save_articles
        (fs_update fs (store_path topic) (Storage.save_articles fs topic now1 articles).2)
        topic now2 articles).1 = 0
    ∧ (Storage.save_articles
        (fs_update fs (store_path topic) (Storage.save_articles fs topic now1 articles).2)
        topic now2 articles).2 = (Storage.save_articles fs topic now1 articles).2 := by
  have hfile : fs_update fs (store_path topic) (Storage.save_articles fs topic now1 articles).2
      (store_path topic)
      = some (Except.ok ((Storage.save_articles fs topic now1 articles).2)) := if_pos rfl
  have hcore := save_file_idem (fs (store_path topic)) now1 now2 articles hnow hpub hcap
  constructor
  · show (Storage.save_file (fs_update fs (store_path topic)
      (Storage.save_articles fs topic now1 articles).2 (store_path topic)) now2 articles).1 = 0
    rw [hfile]
    exact hcore.1
  · show (Storage.save_file (fs_update fs (store_path topic)
      (Storage.save_articles fs topic now1 articles).2 (store_path topic)) now2 articles).2 = _
    rw [hfile]
    exact hcore.2

/-- Witness for C2: a double save of one article against an empty store. -/
theorem save_idempotent_witness :
    (Storage.save_articles
        (fs_update (fun _ => none) (store_path "all")
          (Storage.save_articles (fun _ => none) "all" "n1" [articleC2]).2)
        "all" "n2" [articleC2]).1 = 0
    ∧ (Storage.save_articles
        (fs_update (fun _ => none) (store_path "all")
          (Storage.save_articles (fun _ => none) "all" "n1" [articleC2]).2)
        "all" "n2" [articleC2]).2
      = (Storage.save_articles (fun _ => none) "all" "n1" [articleC2]).2 :=
  save_idempotent (fun _ => none) "all" "n1" "n2" [articleC2]
    (by decide) (by decide) (by decide)

/-- Counterexample to C2 as stated: saving a 101-article batch into an
empty partition truncates one newly added article away, so the second
save of the same batch reports 1 newly added article, not 0. -/
theorem save_idempotent_cex :
    ¬ ((Storage.save_articles
        (fs_update (fun _ => none) (store_path "all")
          (Storage.save_articles (fun _ => none) "all" "n" batch101).2)
        "all" "n" batch101).1 = 0) := by
  decide

/-- Claim C7: an incoming article whose fingerprint is already stored is
silently dropped: removing it (and any batch-mate with the same
fingerprint) from the batch changes neither the newly-added count nor
the written partition, and every stored record carrying that fingerprint
is the serialization of a previously existing article, all fields
unchanged (no update-in-place). -/
theorem save_skip_known (fs : String → StoreFile) (topic now : String)
    (articles : List Article) (a : Article)
    (ha : a ∈ articles)
    (hid : a.id ∈ (Storage.load_articles fs topic now).map (·.id)) :
    Storage.save_articles fs topic now articles
      = Storage.save_articles fs topic now (articles.filter (fun b => !(b.id == a.id)))
    ∧ ∀ d ∈ (Storage.save_articles fs topic now articles).2, d.id = some a.id →
        ∃ e ∈ Storage.load_articles fs topic now, d = Article.to_dict e := by
  have hfeq : new_of (load_store (fs (store_path topic)) now) articles
      = new_of (load_store (fs (store_path topic)) now)
          (articles.filter (fun b => !(b.id == a.id))) := by
    show List.filter _ articles = List.filter _ (List.filter _ articles)
    rw [List.filter_filter]
    refine List.filter_congr (fun b hb => ?_)
    by_cases hba : b.id = a.id
    · have hcb : ((load_store (fs (store_path topic)) now).map (·.id)).contains b.id = true := by
        show List.elem b.id _ = true
        rw [List.elem_iff, hba]
        exact hid
      rw [hcb]
      simp
    · simp [hba]
  constructor
  · show Storage.save_file (fs (store_path topic)) now articles
      = Storage.save_file (fs (store_path topic)) now
          (articles.filter (fun b => !(b.id == a.id)))
    rw [save_file_eq, save_file_eq, ← hfeq]
  · intro d hd hdid
    have hd' : d ∈ (((List.insertionSort byPubDesc
        (load_store (fs (store_path topic)) now
          ++ new_of (load_store (fs (store_path topic)) now) articles)).take 100).map
        Article.to_dict) := hd
    obtain ⟨x, hx, rfl⟩ := List.mem_map.mp hd'
    have hxid : x.id = a.id := by
      have hsome : some x.id = some a.id := hdid
      exact Option.some_injective _ hsome
    have hxmem : x ∈ load_store (fs (store_path topic)) now
        ++ new_of (load_store (fs (store_path topic)) now) articles := by
      have hmem := List.mem_of_mem_take hx
      rwa [List.mem_insertionSort] at hmem
    rcases List.mem_append.mp hxmem with h | h
    · exact ⟨x, h, rfl⟩
    · exfalso
      apply (mem_new_of.mp h).2
      rw [hxid]
      exact hid

/-- Witness for C7: dropping the duplicate from the batch leaves the
save unchanged. -/
theorem save_skip_known_witness :
    Storage.save_articles fsC7 "all" "n" [articleC7]
      = Storage.save_articles fsC7 "all" "n"
          ([articleC7].filter (fun b => !(b.id == articleC7.id))) :=
  (save_skip_known fsC7 "all" "n" [articleC7] articleC7 (by decide) (by decide)).1

/-- `dict_app` does not change the keys of the dict. -/
theorem dict_app_keys (m : List (String × List Article)) (k : String) (a : Article) :
    (dict_app m k a).map Prod.fst = m.map Prod.fst := by
  simp only [dict_app, List.map_map]
  refine List.map_congr_left (fun p _ => ?_)
  by_cases h : p.1 = k <;> simp [h]

/-- Appending to a bucket preserves key presence. -/
theorem dict_app_key_has {m : List (String × List Article)} {k : String}
    (k' : String) (a : Article) (h : key_has m k) : key_has (dict_app m k' a) k := by
  unfold key_has
  rw [dict_app_keys]
  exact h

/-- Setting a key makes it present. -/
theorem dict_set_key_has (m : List (String × List Article)) (k : String)
    (v : List Article) : key_has (dict_set m k v) k := by
  unfold dict_set key_has
  split
  · next hany =>
    obtain ⟨p, hp, hpk⟩ := List.any_eq_true.mp hany
    have hkeys : (m.map (fun p => if p.1 = k then (p.1, v) else p)).map Prod.fst
        = m.map Prod.fst := by
      simp only [List.map_map]
      refine List.map_congr_left (fun q _ => ?_)
      by_cases h : q.1 = k <;> simp [h]
    rw [hkeys]
    exact List.mem_map.mpr ⟨p, hp, of_decide_eq_true hpk⟩
  · rw [List.map_append]
    exact List.mem_append_right _ (by simp)

/-- Setting a key preserves the presence of every key. -/
theorem dict_set_key_mono {m : List (String × List Article)} {k' : String}
    (k : String) (v : List Article) (h : key_has m k') : key_has (dict_set m k v) k' := by
  unfold dict_set
  split
  · have hkeys : (m.map (fun p => if p.1 = k then (p.1, v) else p)).map Prod.fst
        = m.map Prod.fst := by
      simp only [List.map_map]
      refine List.map_congr_left (fun q _ => ?_)
      by_cases hq : q.1 = k <;> simp [hq]
    unfold key_has
    rw [hkeys]
    exact h
  · unfold key_has
    rw [List.map_append]
    exact List.mem_append_left _ h

/-- After appending `a` to the bucket of `k`, every bucket under `k`
contains `a`. -/
theorem dict_app_all_key_self (m : List (String × List Article)) (k : String)
    (a : Article) : all_key (dict_app m k a) k a := by
  intro v hv
  simp only [dict_app, List.mem_map] at hv
  obtain ⟨p, _, hfp⟩ := hv
  by_cases h : p.1 = k
  · rw [if_pos h] at hfp
    injection hfp with h1 h2
    rw [← h2]
    exact List.mem_append_right _ (List.mem_singleton.mpr rfl)
  · rw [if_neg h] at hfp
    exact absurd (congrArg Prod.fst hfp) h

/-- Bucket appends preserve `all_key`. -/
theorem dict_app_all_key_mono {m : List (String × List Article)} {k : String}
    {x : Article} (h : all_key m k x) (k' : String) (a' : Article) :
    all_key (dict_app m k' a') k x := by
  intro v hv
  simp only [dict_app, List.mem_map] at hv
  obtain ⟨p, hp, hfp⟩ := hv
  by_cases hpk : p.1 = k'
  · rw [if_pos hpk] at hfp
    injection hfp with h1 h2
    have hkp : (k, p.2) ∈ m := by
      rw [← h1]
      simpa using hp
    rw [← h2]
    exact List.mem_append_left _ (h _ hkp)
  · rw [if_neg hpk] at hfp
    exact h v (hfp ▸ hp)

/-- A fold of bucket appends preserves `all_key`. -/
theorem foldl_dict_app_all_key_mono (l : List Topic) (art : Article)
    {m : List (String × List Article)} {k : String} {x : Article}
    (h : all_key m k x) :
    all_key (l.foldl (fun m t => dict_app m t.name art) m) k x := by
  induction l generalizing m with
  | nil => exact h
  | cons t ts ih => exact ih (dict_app_all_key_mono h _ _)

/-- A fold of bucket appends preserves key presence. -/
theorem foldl_dict_app_key_has (l : List Topic) (art : Article)
    {m : List (String × List Article)} {k : String} (h : key_has m k) :
    key_has (l.foldl (fun m t => dict_app m t.name art) m) k := by
  induction l generalizing m with
  | nil => exact h
  | cons t ts ih => exact ih (dict_app_key_has _ _ h)

/-- After folding appends of `art` over all matched topics, every bucket
of each matched topic contains `art`. -/
theorem foldl_dict_app_all_key_self (l : List Topic) (art : Article)
    {t : Topic} (ht : t ∈ l) (m : List (String × List Article)) :
    all_key (l.foldl (fun m t' => dict_app m t'.name art) m) t.name art := by
  induction l generalizing m with
  | nil => cases ht
  | cons t' ts ih =>
    rcases List.mem_cons.mp ht with rfl | hts
    · exact foldl_dict_app_all_key_mono ts art (dict_app_all_key_self m t.name art)
    · exact ih hts _

/-- One classification step preserves `all_key`. -/
theorem classify_step_all_key_mono (topics : List Topic) (b : Article)
    {acc : List (String × List Article) × List Article} {k : String} {x : Article}
    (h : all_key acc.1 k x) : all_key (classify_step topics acc b).1 k x := by
  simp only [classify_step]
  split
  · exact dict_app_all_key_mono (foldl_dict_app_all_key_mono _ _ h) _ _
  · exact foldl_dict_app_all_key_mono _ _ h

/-- One classification step preserves key presence. -/
theorem classify_step_key_has (topics : List Topic) (b : Article)
    {acc : List (String × List Article) × List Article} {k : String}
    (h : key_has acc.1 k) : key_has (classify_step topics acc b).1 k := by
  simp only [classify_step]
  split
  · exact dict_app_key_has _ _ (foldl_dict_app_key_has _ _ h)
  · exact foldl_dict_app_key_has _ _ h

/-- The article fold preserves `all_key`. -/
theorem foldl_step_all_key_mono (topics : List Topic) (arts : List Article)
    {acc : List (String × List Article) × List Article} {k : String} {x : Article}
    (h : all_key acc.1 k x) :
    all_key ((arts.foldl (classify_step topics) acc).1) k x := by
  induction arts generalizing acc with
  | nil => exact h
  | cons b bs ih => exact ih (classify_step_all_key_mono topics b h)

/-- The article fold preserves key presence. -/
theorem foldl_step_key_has (topics : List Topic) (arts : List Article)
    {acc : List (String × List Article) × List Article} {k : String}
    (h : key_has acc.1 k) :
    key_has ((arts.foldl (classify_step topics) acc).1) k := by
  induction arts generalizing acc with
  | nil => exact h
  | cons b bs ih => exact ih (classify_step_key_has topics b h)

/-- After the fold over the articles, every bucket of a topic matched by
a processed article contains that article's classified form. -/
theorem classify_fold_hits (topics : List Topic) {t : Topic} (ht : t ∈ topics)
    (arts : List Article) {a : Article} (ha : a ∈ arts)
    (hm : t.matches (search_text a) = true)
    (acc : List (String × List Article) × List Article) :
    all_key ((arts.foldl (classify_step topics) acc).1) t.name (classify_art topics a) := by
  induction arts generalizing acc with
  | nil => cases ha
  | cons b bs ih =>
    rcases List.mem_cons.mp ha with rfl | hbs
    · refine foldl_step_all_key_mono topics bs ?_
      show all_key (classify_step topics acc a).1 t.name (classify_art topics a)
      simp only [classify_step]
      have htm : t ∈ topics.filter (fun t' => t'.matches (search_text a)) :=
        List.mem_filter.mpr ⟨ht, hm⟩
      have hfold := foldl_dict_app_all_key_self
        (topics.filter (fun t' => t'.matches (search_text a)))
        (classify_art topics a) htm acc.1
      split
      · exact dict_app_all_key_mono hfold _ _
      · exact hfold
    · exact ih hbs _

/-- After the fold over the articles, the uncategorized bucket contains
every processed article that matched no topic. -/
theorem classify_fold_uncat (topics : List Topic) (arts : List Article)
    {a : Article} (ha : a ∈ arts)
    (hnone : ∀ t ∈ topics, t.matches (search_text a) = false)
    (acc : List (String × List Article) × List Article) :
    all_key ((arts.foldl (classify_step topics) acc).1) "uncategorized"
      (classify_art topics a) := by
  induction arts generalizing acc with
  | nil => cases ha
  | cons b bs ih =>
    rcases List.mem_cons.mp ha with rfl | hbs
    · refine foldl_step_all_key_mono topics bs ?_
      show all_key (classify_step topics acc a).1 "uncategorized" (classify_art topics a)
      simp only [classify_step]
      have hempty : topics.filter (fun t' => t'.matches (search_text a)) = [] :=
        List.filter_eq_nil_iff.mpr (fun t htt hmt => by
          rw [hnone t htt] at hmt
          exact Bool.false_ne_true hmt)
      have hcond : (topics.filter (fun t' => t'.matches (search_text a))).isEmpty = true := by
        rw [hempty]
        rfl
      rw [if_pos hcond]
      exact dict_app_all_key_self _ _ _
    · exact ih hbs _

/-- Every topic's key is present after building the initial dict. -/
theorem foldl_dict_set_key_mono (l : List Topic)
    {m : List (String × List Article)} {k : String} (h : key_has m k) :
    key_has (l.foldl (fun m t' => dict_set m t'.name []) m) k := by
  induction l generalizing m with
  | nil => exact h
  | cons t' ts ih => exact ih (dict_set_key_mono _ _ h)

/-- A topic in the list gets its key set by the initial fold. -/
theorem foldl_dict_set_key_has (l : List Topic) {t : Topic} (ht : t ∈ l)
    (m : List (String × List Article)) :
    key_has (l.foldl (fun m t' => dict_set m t'.name []) m) t.name := by
  induction l generalizing m with
  | nil => cases ht
  | cons t' ts ih =>
    rcases List.mem_cons.mp ht with rfl | hts
    · exact foldl_dict_set_key_mono ts (dict_set_key_has m t.name [])
    · exact ih hts _

/-- Combining `all_key` with key presence produces a bucket membership. -/
theorem all_key_key_has_exists {m : List (String × List Article)} {k : String}
    {x : Article} (h1 : all_key m k x) (h2 : key_has m k) :
    ∃ v, (k, v) ∈ m ∧ x ∈ v := by
  obtain ⟨p, hp, hpk⟩ := List.mem_map.mp h2
  have hkp : (k, p.2) ∈ m := by
    rw [← hpk]
    simpa using hp
  exact ⟨p.2, hkp, h1 _ hkp⟩

/-- A nonempty bucket survives the final empty-bucket filter. -/
theorem mem_filter_buckets {m : List (String × List Article)} {k : String}
    {x : Article} {v : List Article} (hv : (k, v) ∈ m) (hx : x ∈ v) :
    (k, v) ∈ m.filter (fun p => !p.2.isEmpty) := by
  refine List.mem_filter.mpr ⟨hv, ?_⟩
  simp only [Bool.not_eq_true', List.isEmpty_eq_false]
  exact List.ne_nil_of_mem hx

/-- The second component of the classification fold collects the
classified articles in input order. -/
theorem classify_snd (topics : List Topic) (arts : List Article)
    (m0 : List (String × List Article)) (l0 : List Article) :
    (arts.foldl (classify_step topics) (m0, l0)).2
      = l0 ++ arts.map (classify_art topics) := by
  induction arts generalizing m0 l0 with
  | nil => simp
  | cons b bs ih =>
    show (bs.foldl (classify_step topics) (classify_step topics (m0, l0) b)).2 = _
    have h2 : (classify_step topics (m0, l0) b).2 = l0 ++ [classify_art topics b] := rfl
    have := ih (classify_step topics (m0, l0) b).1 (classify_step topics (m0, l0) b).2
    exact this.trans (by rw [h2]; simp)

/-- Claim C6: classification is multi-label.  The call returns the
post-mutation articles in input order; an article matching a topic's
matcher appears (in its classified form, with that topic's name appended
to its `topics` list) in that topic's bucket — in particular an article
matching two topics appears in both buckets with both names recorded, in
topic evaluation order; an article matching no topic lands in the
reserved "uncategorized" bucket; and no empty bucket survives in the
result. -/
theorem classify_multilabel (topics : List Topic) (articles : List Article) :
    (Classifier.classify topics articles).2 = articles.map (classify_art topics)
    ∧ (∀ a ∈ articles, ∀ t ∈ topics, t.matches (search_text a) = true →
        t.name ∈ (classify_art topics a).topics
        ∧ ∃ v, (t.name, v) ∈ (Classifier.classify topics articles).1
            ∧ classify_art topics a ∈ v)
    ∧ (∀ a ∈ articles, (∀ t ∈ topics, t.matches (search_text a) = false) →
        ∃ v, ("uncategorized", v) ∈ (Classifier.classify topics articles).1
            ∧ classify_art topics a ∈ v)
    ∧ (∀ p ∈ (Classifier.classify topics articles).1, p.2 ≠ [])
    ∧ (∀ a : Article, (classify_art topics a).topics
        = a.topics ++ (topics.filter (fun t => t.matches (search_text a))).map Topic.name) := by
  refine ⟨?_, ?_, ?_, ?_, fun a => rfl⟩
  · exact (classify_snd topics articles _ []).trans (List.nil_append _)
  · intro a ha t ht hm
    constructor
    · exact List.mem_append_right _
        (List.mem_map_of_mem _ (List.mem_filter.mpr ⟨ht, hm⟩))
    · have hak := classify_fold_hits topics ht articles ha hm
        (dict_set (topics.foldl (fun m t => dict_set m t.name []) []) "uncategorized" [], [])
      have hkh : key_has ((articles.foldl (classify_step topics)
          (dict_set (topics.foldl (fun m t => dict_set m t.name []) []) "uncategorized" [],
            [])).1) t.name := by
        refine foldl_step_key_has topics articles ?_
        exact dict_set_key_mono _ _ (foldl_dict_set_key_has topics ht [])
      obtain ⟨v, hv, hxv⟩ := all_key_key_has_exists hak hkh
      exact ⟨v, mem_filter_buckets hv hxv, hxv⟩
  · intro a ha hnone
    have hak := classify_fold_uncat topics articles ha hnone
      (dict_set (topics.foldl (fun m t => dict_set m t.name []) []) "uncategorized" [], [])
    have hkh : key_has ((articles.foldl (classify_step topics)
        (dict_set (topics.foldl (fun m t => dict_set m t.name []) []) "uncategorized" [],
          [])).1) "uncategorized" := by
      refine foldl_step_key_has topics articles ?_
      exact dict_set_key_has _ _ _
    obtain ⟨v, hv, hxv⟩ := all_key_key_has_exists hak hkh
    exact ⟨v, mem_filter_buckets hv hxv, hxv⟩
  · intro p hp hnil
    have hne := (List.mem_filter.mp hp).2
    rw [hnil] at hne
    simp at hne

/-- Witness for C6: the doubly-matching article lands in `topicA`'s
bucket with that topic name recorded. -/
theorem classify_multilabel_witness :
    topicA.name ∈ (classify_art [topicA, topicB] articleC6).topics
    ∧ ∃ v, (topicA.name, v) ∈ (Classifier.classify [topicA, topicB] [articleC6]).1
        ∧ classify_art [topicA, topicB] articleC6 ∈ v :=
  (classify_multilabel [topicA, topicB] [articleC6]).2.1 articleC6 (by decide)
    topicA (by decide) (by decide)
